import Mathlib

/-!
Verification of the attendance-dashboard aggregation logic.

The development shallowly embeds the client-side data pipeline of the
dashboard application (file `App.tsx`): filtering attendance records by
date/session/state, per-unit deduplicated headcounts, percentage-of-target
computation, sorted distributions, top-day/top-state selection, the roster
complement, the per-session winner-lock step, and the data-refresh state
transition.  JavaScript maps keyed by strings are modelled as
insertion-ordered association lists, JavaScript `Set` as an ordered
duplicate-free list, `Array.prototype.sort` (stable since ES2019) as a
stable insertion sort driven by the same comparator, and
`new Date(s).getTime()` as an abstract integer-valued timestamp function
`dTime` supplied as a parameter.
-/

/-- One check-in event row from the `pendaftaran` table.  The fields the
code guards for null/emptiness are modelled as `Option String`. -/
structure AttendanceRecord where
  no_pekerja : String
  nama : String
  penempatan : String
  tarikh_kehadiran : Option String
  wing_negeri : Option String
  sesi : Option String
deriving DecidableEq

/-- One roster row from the `senarai_peserta_penuh` table. -/
structure MasterRecord where
  no_pekerja : String
  nama : String
  wing_negeri : Option String
  penempatan : String
deriving DecidableEq

/-- Per-date aggregate entry. -/
structure DateStat where
  date : String
  count : Nat
deriving DecidableEq

/-- Per-unit aggregate entry. -/
structure StateStat where
  state : String
  count : Nat
  target : Nat
  percentage : Nat
deriving DecidableEq

/-- The value computed by the `stats` memo. -/
structure DashboardStats where
  totalParticipants : Nat
  totalTarget : Nat
  overallPercentage : Nat
  topDay : Option DateStat
  topState : Option StateStat
  dateDistribution : List DateStat
  stateDistribution : List StateStat
  filteredData : List AttendanceRecord
  notRegisteredData : List MasterRecord
deriving DecidableEq

/-- The per-session winner lock record. -/
structure WinnerLock where
  state : String
  percentage : Nat
  timestamp : String
deriving DecidableEq

/-- The hardcoded `PRESET_TARGETS` configuration, in declaration order
(JavaScript object key order for non-index string keys). -/
def PRESET_TARGETS : List (String × Nat) :=
  [("KETUA PENGARAH", 10),
   ("TKP (PIA)", 17),
   ("TKP (KP)", 19),
   ("TKP (SMO)", 13),
   ("FAMA KELANTAN", 10),
   ("FAMA JOHOR", 15),
   ("FAMA SELANGOR", 14),
   ("FAMA SABAH", 20),
   ("FAMA SARAWAK", 13),
   ("FAMA NEGERI SEMBILAN", 11),
   ("FAMA TERENGGANU", 12),
   ("FAMA PAHANG", 17),
   ("FAMA KEDAH", 13),
   ("FAMA PERAK", 15),
   ("FAMA PERLIS", 6),
   ("FAMA PULAU PINANG", 8),
   ("FAMA MELAKA", 8)]

/-- Model of `String.prototype.trim`: strips leading and trailing
whitespace, computed structurally over the character list so that it
evaluates by kernel reduction. -/
def jsTrim (s : String) : String :=
  String.mk (((s.data.dropWhile Char.isWhitespace).reverse.dropWhile Char.isWhitespace).reverse)

/-- JavaScript falsiness of a nullable string: null/undefined or empty. -/
def jsFalsy : Option String → Bool
  | none => true
  | some s => s = ""

/-- The date bucket key of a record:
`record.tarikh_kehadiran ? record.tarikh_kehadiran.trim() : 'N/A'`. -/
def dateKey (r : AttendanceRecord) : String :=
  if jsFalsy r.tarikh_kehadiran then "N/A" else jsTrim (r.tarikh_kehadiran.getD "")

/-- The unit bucket key of a record:
`record.wing_negeri ? record.wing_negeri.trim() : 'Lain-lain'`. -/
def stateKey (r : AttendanceRecord) : String :=
  if jsFalsy r.wing_negeri then "Lain-lain" else jsTrim (r.wing_negeri.getD "")

/-- The filter predicate of the `stats` memo: each selector either holds
the sentinel value "all" or must equal the record field exactly. -/
def recordMatches (selDate selSession selState : String) (r : AttendanceRecord) : Bool :=
  (selDate == "all" || r.tarikh_kehadiran == some selDate) &&
  (selSession == "all" || r.sesi == some selSession) &&
  (selState == "all" || r.wing_negeri == some selState)

/-- Step 1 of the `stats` memo: `rawData.filter(...)`. -/
def filteredRecords (raw : List AttendanceRecord) (selDate selSession selState : String) :
    List AttendanceRecord :=
  raw.filter (recordMatches selDate selSession selState)

/-- Adding an element to a JavaScript `Set` modelled as an
insertion-ordered duplicate-free list. -/
def insNoDup (xs : List String) (x : String) : List String :=
  if x ∈ xs then xs else xs ++ [x]

/-- The `uniqueParticipants` set: `new Set(filtered.map(r => r.no_pekerja))`,
kept in insertion order. -/
def uniqueParticipants (l : List AttendanceRecord) : List String :=
  (l.map (fun r => r.no_pekerja)).foldl insNoDup []

/-- Incrementing a string-keyed counter object, preserving JavaScript
object insertion order for keys. -/
def bumpKey : List (String × Nat) → String → List (String × Nat)
  | [], k => [(k, 1)]
  | (k1, n) :: rest, k =>
      if k1 = k then (k1, n + 1) :: rest else (k1, n) :: bumpKey rest k

/-- The `dateMap` accumulator of the `stats` memo. -/
def buildDateMap (l : List AttendanceRecord) : List (String × Nat) :=
  l.foldl (fun m r => bumpKey m (dateKey r)) []

/-- Adding a value to the set held at a key of a string-keyed object of
sets, preserving insertion order. -/
def setAdd : List (String × List String) → String → String → List (String × List String)
  | [], k, v => [(k, [v])]
  | (k1, s) :: rest, k, v =>
      if k1 = k then (k1, insNoDup s v) :: rest else (k1, s) :: setAdd rest k v

/-- The `stateUniqueMap` accumulator of the `stats` memo. -/
def buildStateMap (l : List AttendanceRecord) : List (String × List String) :=
  l.foldl (fun m r => setAdd m (stateKey r) r.no_pekerja) []

/-- Lookup of a string key in an insertion-ordered object, with a default
value for an absent key. -/
def assocD {β : Type} (d : β) : List (String × β) → String → β
  | [], _ => d
  | (k1, v) :: rest, k => if k1 = k then v else assocD d rest k

/-- Lookup in a counter object, defaulting to 0 for an absent key. -/
def lookupCnt (m : List (String × Nat)) (k : String) : Nat :=
  assocD 0 m k

/-- Lookup in an object of sets, defaulting to the empty set:
`stateUniqueMap[key] ? stateUniqueMap[key] : empty`. -/
def lookupSet (m : List (String × List String)) (k : String) : List String :=
  assocD [] m k

/-- Lookup of a unit target: `PRESET_TARGETS[key] || 0`. -/
def lookupTarget (k : String) : Nat :=
  assocD 0 PRESET_TARGETS k

/-- Exact-rational model of `Math.round((count / target) * 100)` for
nonnegative integer `count` and positive `target`: round half away from
zero, i.e. the floor of `100 * count / target + 1 / 2`. -/
def mathRound100 (count target : Nat) : Nat :=
  (200 * count + target) / (2 * target)

/-- The unit keys shown in the distribution: all preset keys, or the
single selected unit. -/
def stateKeysFor (selState : String) : List String :=
  if selState == "all" then PRESET_TARGETS.map (fun p => p.1) else [selState]

/-- One entry of the (pre-sort) state distribution, from the map of
deduplicated per-unit participant sets. -/
def mkStateStat (m : List (String × List String)) (key : String) : StateStat :=
  { state := key
    count := (lookupSet m key).length
    target := lookupTarget key
    percentage :=
      if 0 < lookupTarget key then mathRound100 (lookupSet m key).length (lookupTarget key)
      else 0 }

/-- The state distribution before sorting, in the order of the unit key
list (the preset configuration order). -/
def stateDistRaw (l : List AttendanceRecord) (selState : String) : List StateStat :=
  (stateKeysFor selState).map (mkStateStat (buildStateMap l))

/-- Stable insertion of `x` into `l`: `x` is placed after every element
`y` with `keep y x = true` (the comparator judged `y` not greater than
`x`), as the ES2019 stable `Array.prototype.sort` would. -/
def insStable (keep : α → α → Bool) (x : α) : List α → List α
  | [] => [x]
  | y :: ys => if keep y x then y :: insStable keep x ys else x :: y :: ys

/-- Stable sort modelling `Array.prototype.sort` with a consistent
comparator: `keep a b = true` means the comparator orders `a` not after
`b`, so `a` may stay before `b`. -/
def jsSortBy (keep : α → α → Bool) (l : List α) : List α :=
  l.foldl (fun acc x => insStable keep x acc) []

/-- Comparator model for `(a, b) => b.percentage - a.percentage`:
`a` stays before `b` iff `b.percentage ≤ a.percentage`. -/
def pctKeep (a b : StateStat) : Bool :=
  b.percentage ≤ a.percentage

/-- Comparator model for
`(a, b) => new Date(a.date).getTime() - new Date(b.date).getTime()`. -/
def dateKeep (dTime : String → Int) (a b : DateStat) : Bool :=
  dTime a.date ≤ dTime b.date

/-- The `dateDistribution`: the entries of `dateMap`, sorted ascending by
timestamp. -/
def dateDistSorted (dTime : String → Int) (l : List AttendanceRecord) : List DateStat :=
  jsSortBy (dateKeep dTime) ((buildDateMap l).map (fun p => { date := p.1, count := p.2 }))

/-- The `stateDistribution`: sorted by percentage descending. -/
def stateDistSorted (l : List AttendanceRecord) (selState : String) : List StateStat :=
  jsSortBy pctKeep (stateDistRaw l selState)

/-- The `topDay` / `topState` selection loop: starting from the sentinel
`-1`, keep the first element whose measure strictly exceeds the running
maximum. -/
def firstMaxLoop (f : α → Int) (l : List α) : Option α :=
  (l.foldl (fun acc x => if f x > acc.2 then (some x, f x) else acc)
    ((none : Option α), (-1 : Int))).1

/-- The `totalTarget` KPI: the sum of all preset targets, or the selected
unit's target. -/
def totalTargetFor (selState : String) : Nat :=
  if selState == "all" then (PRESET_TARGETS.map (fun p => p.2)).foldl (· + ·) 0
  else lookupTarget selState

/-- The roster complement before the optional unit restriction:
`masterData.filter(staff => !uniqueParticipants.has(staff.no_pekerja))`. -/
def rosterBase (ids : List String) (master : List MasterRecord) : List MasterRecord :=
  master.filter (fun staff => !(ids.contains staff.no_pekerja))

/-- The `notRegisteredData` output: the roster complement, additionally
restricted to the selected unit when a specific unit is selected. -/
def notRegisteredFor (raw : List AttendanceRecord) (master : List MasterRecord)
    (selDate selSession selState : String) : List MasterRecord :=
  if selState == "all" then
    rosterBase (uniqueParticipants (filteredRecords raw selDate selSession selState)) master
  else
    (rosterBase (uniqueParticipants (filteredRecords raw selDate selSession selState))
      master).filter (fun staff => staff.wing_negeri == some selState)

/-- The whole `stats` memo as a pure function of the raw data, roster,
filter selection, and the timestamp interpretation of date strings. -/
def stats (dTime : String → Int) (raw : List AttendanceRecord) (master : List MasterRecord)
    (selDate selSession selState : String) : DashboardStats :=
  { totalParticipants := (uniqueParticipants (filteredRecords raw selDate selSession selState)).length
    totalTarget := totalTargetFor selState
    overallPercentage :=
      if 0 < totalTargetFor selState then
        mathRound100 (uniqueParticipants (filteredRecords raw selDate selSession selState)).length
          (totalTargetFor selState)
      else 0
    topDay := firstMaxLoop (fun e => (e.count : Int))
      (dateDistSorted dTime (filteredRecords raw selDate selSession selState))
    topState := firstMaxLoop (fun e => (e.percentage : Int))
      (stateDistSorted (filteredRecords raw selDate selSession selState) selState)
    dateDistribution := dateDistSorted dTime (filteredRecords raw selDate selSession selState)
    stateDistribution := stateDistSorted (filteredRecords raw selDate selSession selState) selState
    filteredData := filteredRecords raw selDate selSession selState
    notRegisteredData := notRegisteredFor raw master selDate selSession selState }

/-- One run of the winner-lock effect: if the currently selected session
key already holds a winner, do nothing; otherwise record the first unit
of the state distribution whose percentage is at least 100, if any. -/
def winnerLockStep (sessionWinners : List (String × WinnerLock)) (selSession : String)
    (stateDistribution : List StateStat) (now : String) : List (String × WinnerLock) :=
  if (List.lookup selSession sessionWinners).isSome then sessionWinners
  else
    match stateDistribution.find? (fun s => 100 ≤ s.percentage) with
    | some champion =>
        sessionWinners ++ [(selSession, { state := champion.state,
                                          percentage := champion.percentage,
                                          timestamp := now })]
    | none => sessionWinners

/-- The component state touched by `fetchAttendanceData`. -/
structure FetchState where
  loading : Bool
  error : Option String
  rawData : List AttendanceRecord
  lastUpdated : Nat
deriving DecidableEq

/-- Outcome of one poll of the remote store: either the response rows, or
a failure (missing configuration, network error, or query error) carrying
its message, `none` when the thrown value has no message. -/
inductive FetchOutcome where
  | success (rows : List AttendanceRecord)
  | failure (message : Option String)
deriving DecidableEq

/-- JavaScript `err.message || fallback`. -/
def jsOrDefault (o : Option String) (fallback : String) : String :=
  match o with
  | none => fallback
  | some s => if s = "" then fallback else s

/-- One completed run of `fetchAttendanceData`: on success the record set
is replaced and the error cleared; on failure only the error message is
set.  `loading` ends false either way (the `finally` block). -/
def fetchAttendanceData (st : FetchState) (outcome : FetchOutcome) (now : Nat) : FetchState :=
  match outcome with
  | .success rows =>
      { loading := false, error := none, rawData := rows, lastUpdated := now }
  | .failure message =>
      { st with loading := false,
                error := some (jsOrDefault message "Gagal mendapatkan data.") }

/-! ### Concrete sample data used to instantiate the general theorems -/

/-- Sample timestamp interpretation of date strings. -/
def dT0 : String → Int := fun s => (s.length : Int)

/-- Sample record: a check-in for employee A1 in session 1. -/
def rJ1 : AttendanceRecord :=
  { no_pekerja := "A1", nama := "Ali", penempatan := "HQ",
    tarikh_kehadiran := some "2026-01-05", wing_negeri := some "FAMA JOHOR",
    sesi := some "Sesi 1" }

/-- Sample record: a second check-in of the same employee A1. -/
def rJ2 : AttendanceRecord :=
  { no_pekerja := "A1", nama := "Ali", penempatan := "HQ",
    tarikh_kehadiran := some "2026-01-05", wing_negeri := some "FAMA JOHOR",
    sesi := some "Sesi 2" }

/-- Sample record with missing date and missing unit. -/
def rN : AttendanceRecord :=
  { no_pekerja := "B2", nama := "Siti", penempatan := "HQ",
    tarikh_kehadiran := none, wing_negeri := none, sesi := some "Sesi 1" }

/-- Sample raw data set. -/
def rawW : List AttendanceRecord := [rJ1, rJ2, rN]

/-- Sample roster. -/
def mdW : List MasterRecord :=
  [{ no_pekerja := "K1", nama := "Abu", wing_negeri := some "FAMA KEDAH", penempatan := "X" },
   { no_pekerja := "A1", nama := "Ali", wing_negeri := some "FAMA JOHOR", penempatan := "HQ" }]

/-- One-member roster from a unit other than the selected one. -/
def mdK : List MasterRecord :=
  [{ no_pekerja := "K1", nama := "Abu", wing_negeri := some "FAMA KEDAH", penempatan := "X" }]

/-- Six distinct attendees of FAMA PERLIS, enough to reach its target 6. -/
def rawP : List AttendanceRecord :=
  ["P1", "P2", "P3", "P4", "P5", "P6"].map (fun id =>
    { no_pekerja := id, nama := id, penempatan := "HQ",
      tarikh_kehadiran := some "2026-01-05", wing_negeri := some "FAMA PERLIS",
      sesi := some "Sesi 1" })

/-! ### Lemmas about the duplicate-free set model -/

theorem insNoDup_toFinset (xs : List String) (x : String) :
    (insNoDup xs x).toFinset = insert x xs.toFinset := by
  unfold insNoDup
  split
  · rename_i h
    exact (Finset.insert_eq_self.mpr (List.mem_toFinset.mpr h)).symm
  · simp [List.toFinset_append, Finset.union_comm, Finset.insert_eq]

theorem insNoDup_nodup {xs : List String} (h : xs.Nodup) (x : String) :
    (insNoDup xs x).Nodup := by
  unfold insNoDup
  split
  · exact h
  · rename_i hx
    simpa [List.nodup_append] using ⟨h, fun hmem => hx hmem⟩

theorem foldl_insNoDup_toFinset (ids : List String) :
    ∀ acc : List String, (ids.foldl insNoDup acc).toFinset = acc.toFinset ∪ ids.toFinset := by
  induction ids with
  | nil => intro acc; simp
  | cons x ids ih =>
      intro acc
      rw [List.foldl_cons, ih, insNoDup_toFinset]
      ext y
      simp
      try tauto

theorem foldl_insNoDup_nodup (ids : List String) :
    ∀ acc : List String, acc.Nodup → (ids.foldl insNoDup acc).Nodup := by
  induction ids with
  | nil => intro acc h; exact h
  | cons x ids ih => intro acc h; exact ih _ (insNoDup_nodup h x)

theorem foldl_insNoDup_length (ids : List String) :
    (ids.foldl insNoDup []).length = ids.dedup.length := by
  have hnd : (ids.foldl insNoDup []).Nodup := foldl_insNoDup_nodup ids [] List.nodup_nil
  have hfs : (ids.foldl insNoDup []).toFinset = ids.toFinset := by
    rw [foldl_insNoDup_toFinset]; simp
  calc (ids.foldl insNoDup []).length
      = (ids.foldl insNoDup []).toFinset.card := (List.toFinset_card_of_nodup hnd).symm
    _ = ids.toFinset.card := by rw [hfs]
    _ = ids.dedup.length := List.card_toFinset ids

theorem foldl_insNoDup_mem (ids : List String) (y : String) :
    y ∈ ids.foldl insNoDup [] ↔ y ∈ ids := by
  rw [← List.mem_toFinset, foldl_insNoDup_toFinset]
  simp

theorem uniqueParticipants_length (l : List AttendanceRecord) :
    (uniqueParticipants l).length = (l.map (fun r => r.no_pekerja)).dedup.length :=
  foldl_insNoDup_length _

theorem uniqueParticipants_mem (l : List AttendanceRecord) (y : String) :
    y ∈ uniqueParticipants l ↔ ∃ r ∈ l, r.no_pekerja = y := by
  rw [uniqueParticipants, foldl_insNoDup_mem]
  simp [List.mem_map]

/-! ### Lemmas about the counter and set maps -/

theorem lookupCnt_bumpKey (m : List (String × Nat)) (k1 k : String) :
    lookupCnt (bumpKey m k1) k = if k1 = k then lookupCnt m k + 1 else lookupCnt m k := by
  induction m with
  | nil =>
      by_cases h : k1 = k
      · simp [bumpKey, lookupCnt, assocD, h]
      · simp [bumpKey, lookupCnt, assocD, h]
  | cons p rest ih =>
      obtain ⟨k2, n⟩ := p
      by_cases h21 : k2 = k1
      · subst h21
        by_cases h2k : k2 = k
        · subst h2k
          simp [bumpKey, lookupCnt, assocD]
        · simp [bumpKey, lookupCnt, assocD, h2k]
      · by_cases h2k : k2 = k
        · subst h2k
          have h1k : ¬ k1 = k2 := fun h => h21 h.symm
          simp [bumpKey, lookupCnt, assocD, h21, h1k]
        · simpa [bumpKey, lookupCnt, assocD, h21, h2k] using ih

theorem lookupCnt_foldl_bump (l : List AttendanceRecord) :
    ∀ (m : List (String × Nat)) (k : String),
      lookupCnt (l.foldl (fun m r => bumpKey m (dateKey r)) m) k
        = lookupCnt m k + l.countP (fun r => dateKey r == k) := by
  induction l with
  | nil => intro m k; simp
  | cons r l ih =>
      intro m k
      rw [List.foldl_cons, ih, lookupCnt_bumpKey, List.countP_cons]
      by_cases h : dateKey r = k
      · simp [h]; omega
      · simp [h]

theorem lookupCnt_buildDateMap (l : List AttendanceRecord) (k : String) :
    lookupCnt (buildDateMap l) k = l.countP (fun r => dateKey r == k) := by
  rw [buildDateMap, lookupCnt_foldl_bump]
  simp [lookupCnt, assocD]

theorem lookupSet_setAdd (m : List (String × List String)) (k1 v k : String) :
    lookupSet (setAdd m k1 v) k
      = if k1 = k then insNoDup (lookupSet m k) v else lookupSet m k := by
  induction m with
  | nil =>
      by_cases h : k1 = k
      · simp [setAdd, lookupSet, assocD, h, insNoDup]
      · simp [setAdd, lookupSet, assocD, h]
  | cons p rest ih =>
      obtain ⟨k2, s⟩ := p
      by_cases h21 : k2 = k1
      · subst h21
        by_cases h2k : k2 = k
        · subst h2k
          simp [setAdd, lookupSet, assocD]
        · simp [setAdd, lookupSet, assocD, h2k]
      · by_cases h2k : k2 = k
        · subst h2k
          have h1k : ¬ k1 = k2 := fun h => h21 h.symm
          simp [setAdd, lookupSet, assocD, h21, h1k]
        · simpa [setAdd, lookupSet, assocD, h21, h2k] using ih

theorem lookupSet_foldl_setAdd (l : List AttendanceRecord) :
    ∀ (m : List (String × List String)) (k : String),
      lookupSet (l.foldl (fun m r => setAdd m (stateKey r) r.no_pekerja) m) k
        = ((l.filter (fun r => stateKey r == k)).map (fun r => r.no_pekerja)).foldl insNoDup
            (lookupSet m k) := by
  induction l with
  | nil => intro m k; simp
  | cons r l ih =>
      intro m k
      rw [List.foldl_cons, ih, lookupSet_setAdd, List.filter_cons]
      by_cases h : stateKey r = k
      · simp [h]
      · simp [h]

theorem lookupSet_buildStateMap (l : List AttendanceRecord) (k : String) :
    lookupSet (buildStateMap l) k
      = ((l.filter (fun r => stateKey r == k)).map (fun r => r.no_pekerja)).foldl insNoDup [] := by
  rw [buildStateMap, lookupSet_foldl_setAdd]
  rfl

theorem lookupSet_buildStateMap_length (l : List AttendanceRecord) (k : String) :
    (lookupSet (buildStateMap l) k).length
      = ((l.filter (fun r => stateKey r == k)).map (fun r => r.no_pekerja)).dedup.length := by
  rw [lookupSet_buildStateMap, foldl_insNoDup_length]

theorem lookupSet_buildStateMap_mem (l : List AttendanceRecord) (k y : String) :
    y ∈ lookupSet (buildStateMap l) k ↔ ∃ r ∈ l, stateKey r = k ∧ r.no_pekerja = y := by
  rw [lookupSet_buildStateMap, foldl_insNoDup_mem]
  simp [List.mem_filter, List.mem_map]
  tauto

/-! ### The first-maximum selection and the stable sort -/

/-- Combination of two candidate maxima: the right one wins only when it
is strictly greater, matching both the selection loop and the placement
rule of the stable sort. -/
def pickMax (f : α → Int) : Option α → Option α → Option α
  | none, o => o
  | some m, none => some m
  | some m, some x => if f x > f m then some x else some m

/-- The first element of a list attaining the maximal measure. -/
def firstMaxBy (f : α → Int) : List α → Option α
  | [] => none
  | x :: xs => pickMax f (some x) (firstMaxBy f xs)

theorem pickMax_none_right (f : α → Int) (o : Option α) : pickMax f o none = o := by
  cases o <;> rfl

theorem pickMax_assoc (f : α → Int) (a b c : Option α) :
    pickMax f (pickMax f a b) c = pickMax f a (pickMax f b c) := by
  cases a with
  | none => rfl
  | some p =>
      cases b with
      | none => rw [pickMax_none_right]; rfl
      | some q =>
          cases c with
          | none => rw [pickMax_none_right, pickMax_none_right]
          | some r =>
              by_cases h1 : f q > f p
              · by_cases h2 : f r > f q
                · have h3 : f r > f p := lt_trans h1 h2
                  simp [pickMax, h1, h2, h3]
                · simp [pickMax, h1, h2]
              · by_cases h2 : f r > f q
                · simp [pickMax, h1, h2]
                · have h3 : ¬ f r > f p := by omega
                  simp [pickMax, h1, h2, h3]

theorem firstMaxBy_eq_none (f : α → Int) (l : List α) :
    firstMaxBy f l = none ↔ l = [] := by
  cases l with
  | nil => simp [firstMaxBy]
  | cons x xs =>
      simp only [firstMaxBy]
      constructor
      · intro h
        cases hx : firstMaxBy f xs with
        | none => rw [hx] at h; simp [pickMax] at h
        | some m =>
            rw [hx] at h
            simp only [pickMax] at h
            split at h <;> simp at h
      · intro h
        exact absurd h (List.cons_ne_nil x xs)

theorem firstMaxBy_spec (f : α → Int) (l : List α) :
    ∀ t, firstMaxBy f l = some t →
      ∃ pre post, l = pre ++ t :: post ∧ (∀ e ∈ pre, f e < f t) ∧ (∀ e ∈ l, f e ≤ f t) := by
  induction l with
  | nil => intro t h; simp [firstMaxBy] at h
  | cons x xs ih =>
      intro t h
      simp only [firstMaxBy] at h
      cases hx : firstMaxBy f xs with
      | none =>
          rw [hx] at h
          simp only [pickMax] at h
          have hxs : xs = [] := (firstMaxBy_eq_none f xs).mp hx
          subst hxs
          injection h with h
          subst h
          exact ⟨[], [], rfl, by simp, by simp⟩
      | some m =>
          rw [hx] at h
          simp only [pickMax] at h
          obtain ⟨pre, post, heq, hpre, hall⟩ := ih m hx
          split at h
          · rename_i hgt
            injection h with h
            subst h
            refine ⟨x :: pre, post, by rw [heq]; rfl, ?_, ?_⟩
            · intro e he
              rcases List.mem_cons.mp he with rfl | he
              · exact hgt
              · exact hpre e he
            · intro e he
              rcases List.mem_cons.mp he with rfl | he
              · exact le_of_lt hgt
              · exact hall e he
          · rename_i hle
            injection h with h
            subst h
            refine ⟨[], xs, rfl, by simp, ?_⟩
            intro e he
            rcases List.mem_cons.mp he with rfl | he
            · exact le_refl _
            · exact le_trans (hall e he) (by omega)

theorem firstMaxBy_mem (f : α → Int) (l : List α) (t : α) (h : firstMaxBy f l = some t) :
    t ∈ l := by
  obtain ⟨pre, post, heq, -, -⟩ := firstMaxBy_spec f l t h
  rw [heq]
  exact List.mem_append_right pre (List.mem_cons_self t post)

/-- On a list already sorted with larger measures first, the first
maximum is the head. -/
theorem firstMaxBy_of_pairwise (f : α → Int) (l : List α)
    (h : l.Pairwise (fun a b => f b ≤ f a)) : firstMaxBy f l = l.head? := by
  cases l with
  | nil => rfl
  | cons x xs =>
      simp only [firstMaxBy, List.head?]
      cases hx : firstMaxBy f xs with
      | none => rfl
      | some m =>
          have hm : m ∈ xs := firstMaxBy_mem f xs m hx
          have hle : f m ≤ f x := (List.pairwise_cons.mp h).1 m hm
          simp [pickMax, not_lt.mpr hle]

theorem firstMaxLoop_from (f : α → Int) (l : List α) :
    ∀ m : α,
      (l.foldl (fun acc x => if f x > acc.2 then (some x, f x) else acc) (some m, f m)).1
        = pickMax f (some m) (firstMaxBy f l) := by
  induction l with
  | nil => intro m; simp [firstMaxBy, pickMax_none_right]
  | cons x xs ih =>
      intro m
      simp only [List.foldl_cons]
      change (List.foldl _ (if f x > f m then (some x, f x) else (some m, f m)) xs).1 = _
      by_cases hc : f x > f m
      · rw [if_pos hc, ih x,
          show firstMaxBy f (x :: xs) = pickMax f (some x) (firstMaxBy f xs) from rfl,
          ← pickMax_assoc]
        simp [pickMax, hc]
      · rw [if_neg hc, ih m,
          show firstMaxBy f (x :: xs) = pickMax f (some x) (firstMaxBy f xs) from rfl,
          ← pickMax_assoc]
        simp [pickMax, hc]

theorem firstMaxLoop_eq (f : α → Int) (l : List α) (hpos : ∀ x ∈ l, -1 < f x) :
    firstMaxLoop f l = firstMaxBy f l := by
  cases l with
  | nil => rfl
  | cons x xs =>
      unfold firstMaxLoop
      simp only [List.foldl_cons]
      change (List.foldl _ (if f x > -1 then (some x, f x) else (none, -1)) xs).1 = _
      rw [if_pos (hpos x (List.mem_cons_self x xs)), firstMaxLoop_from]
      rfl

/-! ### Lemmas about the stable sort -/

theorem insStable_perm (keep : α → α → Bool) (x : α) (l : List α) :
    (insStable keep x l).Perm (x :: l) := by
  induction l with
  | nil => exact List.Perm.refl _
  | cons y ys ih =>
      simp only [insStable]
      split
      · exact (ih.cons y).trans (List.Perm.swap x y ys)
      · exact List.Perm.refl _

theorem jsSortBy_perm_aux (keep : α → α → Bool) (l : List α) :
    ∀ acc : List α, (l.foldl (fun a x => insStable keep x a) acc).Perm (acc ++ l) := by
  induction l with
  | nil => intro acc; simp
  | cons x xs ih =>
      intro acc
      rw [List.foldl_cons]
      refine (ih (insStable keep x acc)).trans ?_
      refine (((insStable_perm keep x acc).append_right xs).trans ?_)
      exact List.perm_middle.symm.trans (List.Perm.refl _) |>.symm |>.symm

theorem jsSortBy_perm (keep : α → α → Bool) (l : List α) :
    (jsSortBy keep l).Perm l := jsSortBy_perm_aux keep l []

theorem jsSortBy_mem (keep : α → α → Bool) (l : List α) (x : α) :
    x ∈ jsSortBy keep l ↔ x ∈ l :=
  (jsSortBy_perm keep l).mem_iff

theorem jsSortBy_length (keep : α → α → Bool) (l : List α) :
    (jsSortBy keep l).length = l.length :=
  (jsSortBy_perm keep l).length_eq

theorem insStable_pairwise (keep : α → α → Bool)
    (htot : ∀ a b, keep a b = true ∨ keep b a = true)
    (htrans : ∀ a b c, keep a b = true → keep b c = true → keep a c = true)
    (x : α) (l : List α) (h : l.Pairwise (fun a b => keep a b = true)) :
    (insStable keep x l).Pairwise (fun a b => keep a b = true) := by
  induction l with
  | nil => simp [insStable]
  | cons y ys ih =>
      simp only [insStable]
      rcases List.pairwise_cons.mp h with ⟨hy, hys⟩
      split
      · rename_i hyx
        refine List.pairwise_cons.mpr ⟨?_, ih hys⟩
        intro z hz
        have hz2 : z ∈ x :: ys := (insStable_perm keep x ys).mem_iff.mp hz
        rcases List.mem_cons.mp hz2 with rfl | hz3
        · exact hyx
        · exact hy z hz3
      · rename_i hyx
        have hxy : keep x y = true := by
          rcases htot x y with h1 | h1
          · exact h1
          · exact absurd h1 hyx
        refine List.pairwise_cons.mpr ⟨?_, h⟩
        intro z hz
        rcases List.mem_cons.mp hz with rfl | hz2
        · exact hxy
        · exact htrans x y z hxy (hy z hz2)

theorem jsSortBy_pairwise (keep : α → α → Bool)
    (htot : ∀ a b, keep a b = true ∨ keep b a = true)
    (htrans : ∀ a b c, keep a b = true → keep b c = true → keep a c = true)
    (l : List α) :
    (jsSortBy keep l).Pairwise (fun a b => keep a b = true) := by
  have haux : ∀ (l acc : List α), acc.Pairwise (fun a b => keep a b = true) →
      (l.foldl (fun a x => insStable keep x a) acc).Pairwise (fun a b => keep a b = true) := by
    intro l
    induction l with
    | nil => intro acc h; exact h
    | cons x xs ih =>
        intro acc h
        exact ih _ (insStable_pairwise keep htot htrans x acc h)
  exact haux l [] List.Pairwise.nil

theorem insStable_head (f : α → Int) (keep : α → α → Bool)
    (hkeep : ∀ a b, keep a b = true ↔ f b ≤ f a) (x : α) (acc : List α) :
    (insStable keep x acc).head? = pickMax f acc.head? (some x) := by
  cases acc with
  | nil => rfl
  | cons y ys =>
      simp only [insStable, List.head?]
      by_cases h : keep y x = true
      · rw [if_pos h]
        have hle : f x ≤ f y := (hkeep y x).mp h
        simp [pickMax, not_lt.mpr hle]
      · rw [if_neg h]
        have hgt : f y < f x := by
          rcases lt_or_ge (f y) (f x) with h1 | h1
          · exact h1
          · exact absurd ((hkeep y x).mpr h1) h
        simp [pickMax, hgt]

theorem jsSortBy_head_aux (f : α → Int) (keep : α → α → Bool)
    (hkeep : ∀ a b, keep a b = true ↔ f b ≤ f a) (l : List α) :
    ∀ acc : List α,
      (l.foldl (fun a x => insStable keep x a) acc).head? = pickMax f acc.head? (firstMaxBy f l) := by
  induction l with
  | nil => intro acc; simp [firstMaxBy, pickMax_none_right]
  | cons x xs ih =>
      intro acc
      rw [List.foldl_cons, ih (insStable keep x acc), insStable_head f keep hkeep,
        pickMax_assoc]
      rfl

theorem jsSortBy_head (f : α → Int) (keep : α → α → Bool)
    (hkeep : ∀ a b, keep a b = true ↔ f b ≤ f a) (l : List α) :
    (jsSortBy keep l).head? = firstMaxBy f l := by
  have := jsSortBy_head_aux f keep hkeep l []
  simpa [pickMax] using this

/-! ### Instantiations for the two comparators -/

theorem pctKeep_iff (a b : StateStat) :
    pctKeep a b = true ↔ ((b.percentage : Int) ≤ (a.percentage : Int)) := by
  simp [pctKeep]

theorem pctKeep_total (a b : StateStat) : pctKeep a b = true ∨ pctKeep b a = true := by
  simp [pctKeep]
  omega

theorem pctKeep_trans (a b c : StateStat) :
    pctKeep a b = true → pctKeep b c = true → pctKeep a c = true := by
  simp [pctKeep]
  omega

theorem dateKeep_iff (dTime : String → Int) (a b : DateStat) :
    dateKeep dTime a b = true ↔ dTime b.date ≤ dTime a.date → dTime a.date ≤ dTime b.date := by
  constructor
  · intro h _
    simpa [dateKeep] using h
  · intro h
    by_cases hc : dTime a.date ≤ dTime b.date
    · simpa [dateKeep] using hc
    · have := h (by omega)
      exact absurd this hc

theorem dateKeep_total (dTime : String → Int) (a b : DateStat) :
    dateKeep dTime a b = true ∨ dateKeep dTime b a = true := by
  simp [dateKeep]
  omega

theorem dateKeep_trans (dTime : String → Int) (a b c : DateStat) :
    dateKeep dTime a b = true → dateKeep dTime b c = true → dateKeep dTime a c = true := by
  simp [dateKeep]
  omega

theorem stateDistSorted_pairwise (l : List AttendanceRecord) (selState : String) :
    (stateDistSorted l selState).Pairwise (fun a b => b.percentage ≤ a.percentage) := by
  have := jsSortBy_pairwise pctKeep pctKeep_total pctKeep_trans (stateDistRaw l selState)
  exact this.imp (fun h => by simpa [pctKeep] using h)

theorem dateDistSorted_pairwise (dTime : String → Int) (l : List AttendanceRecord) :
    (dateDistSorted dTime l).Pairwise (fun a b => dTime a.date ≤ dTime b.date) := by
  have := jsSortBy_pairwise (dateKeep dTime) (dateKeep_total dTime) (dateKeep_trans dTime)
    ((buildDateMap l).map (fun p => { date := p.1, count := p.2 }))
  exact this.imp (fun h => by simpa [dateKeep] using h)

/-! ### Nonemptiness facts -/

theorem stateKeysFor_ne_nil (selState : String) : stateKeysFor selState ≠ [] := by
  unfold stateKeysFor
  split
  · simp [PRESET_TARGETS]
  · simp

theorem stateDistRaw_ne_nil (l : List AttendanceRecord) (selState : String) :
    stateDistRaw l selState ≠ [] := by
  unfold stateDistRaw
  simpa using stateKeysFor_ne_nil selState

theorem stateDistSorted_ne_nil (l : List AttendanceRecord) (selState : String) :
    stateDistSorted l selState ≠ [] := by
  intro h
  have hlen := jsSortBy_length pctKeep (stateDistRaw l selState)
  rw [show jsSortBy pctKeep (stateDistRaw l selState) = stateDistSorted l selState from rfl,
    h] at hlen
  exact stateDistRaw_ne_nil l selState (List.length_eq_zero.mp hlen.symm)

theorem bumpKey_ne_nil (m : List (String × Nat)) (k : String) : bumpKey m k ≠ [] := by
  cases m with
  | nil => simp [bumpKey]
  | cons p rest =>
      obtain ⟨k1, n⟩ := p
      simp only [bumpKey]
      split <;> simp

theorem buildDateMap_eq_nil (l : List AttendanceRecord) :
    buildDateMap l = [] ↔ l = [] := by
  constructor
  · intro h
    cases l with
    | nil => rfl
    | cons r rest =>
        exfalso
        have haux : ∀ (l : List AttendanceRecord) (m : List (String × Nat)), m ≠ [] →
            l.foldl (fun m r => bumpKey m (dateKey r)) m ≠ [] := by
          intro l
          induction l with
          | nil => intro m hm; exact hm
          | cons x xs ih => intro m hm; exact ih _ (bumpKey_ne_nil m (dateKey x))
        have : buildDateMap (r :: rest) ≠ [] := by
          unfold buildDateMap
          rw [List.foldl_cons]
          exact haux rest _ (bumpKey_ne_nil [] (dateKey r))
        exact this h
  · intro h
    subst h
    rfl

theorem dateDistSorted_eq_nil (dTime : String → Int) (l : List AttendanceRecord) :
    dateDistSorted dTime l = [] ↔ l = [] := by
  rw [← buildDateMap_eq_nil]
  unfold dateDistSorted
  constructor
  · intro h
    have hlen := jsSortBy_length (dateKeep dTime)
      ((buildDateMap l).map (fun p => { date := p.1, count := p.2 }))
    rw [h] at hlen
    have := List.length_eq_zero.mp hlen.symm
    simpa using List.map_eq_nil_iff.mp this
  · intro h
    rw [h]
    rfl

/-! ### The champion found on a sorted distribution is maximal -/

theorem find?_champion_max (l : List StateStat)
    (hp : l.Pairwise (fun a b => b.percentage ≤ a.percentage)) :
    ∀ c, l.find? (fun s => 100 ≤ s.percentage) = some c →
      ∀ x ∈ l, x.percentage ≤ c.percentage := by
  induction l with
  | nil => intro c hc; simp at hc
  | cons y ys ih =>
      intro c hc x hx
      rcases List.pairwise_cons.mp hp with ⟨hy, hys⟩
      by_cases hyp : 100 ≤ y.percentage
      · rw [List.find?_cons_of_pos _ (by simpa using hyp)] at hc
        injection hc with hc
        subst hc
        rcases List.mem_cons.mp hx with rfl | hx2
        · exact le_refl _
        · exact hy x hx2
      · rw [List.find?_cons_of_neg _ (by simpa using hyp)] at hc
        have hcp : 100 ≤ c.percentage := by
          have := List.find?_some hc
          simpa using this
        rcases List.mem_cons.mp hx with rfl | hx2
        · omega
        · exact ih hys c hc x hx2

/-! ### Association-list lookups across appends -/

theorem lookup_append_of_some {β : Type} (k : String) (l1 l2 : List (String × β)) (v : β)
    (h : List.lookup k l1 = some v) : List.lookup k (l1 ++ l2) = some v := by
  induction l1 with
  | nil => simp [List.lookup] at h
  | cons p rest ih =>
      obtain ⟨k1, v1⟩ := p
      simp only [List.lookup, List.cons_append] at h ⊢
      cases hb : (k == k1) with
      | true => simp only [hb] at h ⊢; exact h
      | false => simp only [hb] at h ⊢; exact ih h

theorem lookup_append_of_none {β : Type} (k : String) (l1 l2 : List (String × β))
    (h : List.lookup k l1 = none) : List.lookup k (l1 ++ l2) = List.lookup k l2 := by
  induction l1 with
  | nil => rfl
  | cons p rest ih =>
      obtain ⟨k1, v1⟩ := p
      simp only [List.lookup, List.cons_append] at h ⊢
      cases hb : (k == k1) with
      | true => simp [hb] at h
      | false => simp only [hb] at h ⊢; exact ih h

/-! ### Claim theorems -/

/-- C2: for every unit entry produced by the aggregation, and for the
overall KPI, the percentage equals the rounding of count over target
times 100 whenever the target is positive, and equals 0 whenever the
target is 0, for all inputs and filter selections. -/
theorem C2_percentage_formula (dTime : String → Int) (raw : List AttendanceRecord)
    (master : List MasterRecord) (selDate selSession selState : String) :
    (∀ e ∈ (stats dTime raw master selDate selSession selState).stateDistribution,
      e.percentage = if 0 < e.target then mathRound100 e.count e.target else 0)
    ∧ (stats dTime raw master selDate selSession selState).overallPercentage
        = if 0 < (stats dTime raw master selDate selSession selState).totalTarget then
            mathRound100 (stats dTime raw master selDate selSession selState).totalParticipants
              (stats dTime raw master selDate selSession selState).totalTarget
          else 0 := by
  constructor
  · intro e he
    have he2 : e ∈ stateDistRaw (filteredRecords raw selDate selSession selState) selState :=
      (jsSortBy_mem pctKeep
        (stateDistRaw (filteredRecords raw selDate selSession selState) selState) e).mp he
    obtain ⟨k, hk, rfl⟩ := List.mem_map.mp he2
    rfl
  · rfl

/-- Witness for C2 at a concrete input: the single FAMA JOHOR entry. -/
theorem C2_percentage_formula_witness :
    (⟨"FAMA JOHOR", 1, 15, 7⟩ : StateStat).percentage
      = if 0 < (⟨"FAMA JOHOR", 1, 15, 7⟩ : StateStat).target then
          mathRound100 (⟨"FAMA JOHOR", 1, 15, 7⟩ : StateStat).count
            (⟨"FAMA JOHOR", 1, 15, 7⟩ : StateStat).target
        else 0 :=
  (C2_percentage_formula dT0 rawW mdW "all" "all" "FAMA JOHOR").1
    ⟨"FAMA JOHOR", 1, 15, 7⟩ (by decide)

/-- C3: once the winners map holds a lock for a session key, a run of the
winner-lock step never changes or removes that entry, whatever state
distribution is supplied; and a run selecting a key that already holds a
lock writes nothing at all. -/
theorem C3_lock_immutable (m : List (String × WinnerLock)) (key : String) (w : WinnerLock)
    (selSession : String) (dist : List StateStat) (now : String)
    (h : List.lookup key m = some w) :
    List.lookup key (winnerLockStep m selSession dist now) = some w
    ∧ winnerLockStep m key dist now = m := by
  constructor
  · unfold winnerLockStep
    split
    · exact h
    · split
      · exact lookup_append_of_some key m _ w h
      · exact h
  · unfold winnerLockStep
    rw [if_pos (by simp [h])]

/-- Witness for C3: a stored Sesi 1 lock survives a step in which another
unit is at 133 percent. -/
theorem C3_lock_immutable_witness :
    List.lookup "Sesi 1"
        (winnerLockStep [("Sesi 1", (⟨"FAMA PERLIS", 100, "t0"⟩ : WinnerLock))] "Sesi 1"
          [(⟨"FAMA JOHOR", 20, 15, 133⟩ : StateStat)] "t1")
      = some (⟨"FAMA PERLIS", 100, "t0"⟩ : WinnerLock) :=
  (C3_lock_immutable [("Sesi 1", ⟨"FAMA PERLIS", 100, "t0"⟩)] "Sesi 1"
    ⟨"FAMA PERLIS", 100, "t0"⟩ "Sesi 1" [⟨"FAMA JOHOR", 20, 15, 133⟩] "t1" (by decide)).1

/-- C4: with no winner recorded for the selected session key, the lock
step records the champion found in the current distribution when some
unit has percentage at least 100, and leaves the state unchanged when no
unit reaches 100. -/
theorem C4_lock_transition (m : List (String × WinnerLock)) (selSession : String)
    (dist : List StateStat) (now : String) (habs : List.lookup selSession m = none) :
    (∀ c, dist.find? (fun s => 100 ≤ s.percentage) = some c →
      List.lookup selSession (winnerLockStep m selSession dist now)
        = some { state := c.state, percentage := c.percentage, timestamp := now })
    ∧ ((∃ s ∈ dist, 100 ≤ s.percentage) →
        (List.lookup selSession (winnerLockStep m selSession dist now)).isSome)
    ∧ ((∀ s ∈ dist, s.percentage < 100) → winnerLockStep m selSession dist now = m) := by
  have hwrite : ∀ c, dist.find? (fun s => 100 ≤ s.percentage) = some c →
      List.lookup selSession (winnerLockStep m selSession dist now)
        = some { state := c.state, percentage := c.percentage, timestamp := now } := by
    intro c hc
    unfold winnerLockStep
    rw [if_neg (by simp [habs]), hc, lookup_append_of_none selSession m _ habs]
    simp [List.lookup]
  refine ⟨hwrite, ?_, ?_⟩
  · intro hex
    have hc : (dist.find? (fun s => 100 ≤ s.percentage)).isSome := by
      rw [List.find?_isSome]
      obtain ⟨s, hs, hp⟩ := hex
      exact ⟨s, hs, by simpa using hp⟩
    obtain ⟨c, hc2⟩ := Option.isSome_iff_exists.mp hc
    rw [hwrite c hc2]
    rfl
  · intro hlt
    unfold winnerLockStep
    rw [if_neg (by simp [habs])]
    have hn : dist.find? (fun s => 100 ≤ s.percentage) = none := by
      rw [List.find?_eq_none]
      intro x hx
      have := hlt x hx
      simp
      omega
    rw [hn]

/-- Witness for C4: an empty winners map locks FAMA PERLIS at 100 percent
for Sesi 1, and an under-target distribution writes nothing. -/
theorem C4_lock_transition_witness :
    List.lookup "Sesi 1"
        (winnerLockStep [] "Sesi 1" [(⟨"FAMA PERLIS", 6, 6, 100⟩ : StateStat)] "t1")
      = some (⟨"FAMA PERLIS", 100, "t1"⟩ : WinnerLock)
    ∧ winnerLockStep [] "Sesi 1" [(⟨"FAMA JOHOR", 1, 15, 7⟩ : StateStat)] "t1" = [] :=
  ⟨(C4_lock_transition [] "Sesi 1" [⟨"FAMA PERLIS", 6, 6, 100⟩] "t1" (by decide)).1
      ⟨"FAMA PERLIS", 6, 6, 100⟩ (by decide),
   (C4_lock_transition [] "Sesi 1" [⟨"FAMA JOHOR", 1, 15, 7⟩] "t1" (by decide)).2.2
      (by decide)⟩

/-- C8: a failed refresh records an error message and leaves the
previously loaded record set unchanged; a successful refresh replaces
the record set with the response and clears the error, so the record set
changes only on success. -/
theorem C8_refresh (st : FetchState) (now : Nat) :
    (∀ rows, (fetchAttendanceData st (.success rows) now).rawData = rows
      ∧ (fetchAttendanceData st (.success rows) now).error = none)
    ∧ (∀ message, (fetchAttendanceData st (.failure message) now).rawData = st.rawData
      ∧ (fetchAttendanceData st (.failure message) now).error
          = some (jsOrDefault message "Gagal mendapatkan data.")) :=
  ⟨fun _ => ⟨rfl, rfl⟩, fun _ => ⟨rfl, rfl⟩⟩

/-- C1: the aggregation totals are deduplicated by employee identifier:
the overall headcount is the number of distinct identifiers in the
filtered set, and each unit entry's count is the number of distinct
identifiers among the filtered records bucketed into that unit. -/
theorem C1_dedup_counts (dTime : String → Int) (raw : List AttendanceRecord)
    (master : List MasterRecord) (selDate selSession selState : String) :
    (stats dTime raw master selDate selSession selState).totalParticipants
      = (((stats dTime raw master selDate selSession selState).filteredData).map
          (fun r => r.no_pekerja)).dedup.length
    ∧ ∀ e ∈ (stats dTime raw master selDate selSession selState).stateDistribution,
        e.count = (((stats dTime raw master selDate selSession selState).filteredData.filter
            (fun r => stateKey r == e.state)).map (fun r => r.no_pekerja)).dedup.length := by
  constructor
  · exact uniqueParticipants_length _
  · intro e he
    have he2 : e ∈ stateDistRaw (filteredRecords raw selDate selSession selState) selState :=
      (jsSortBy_mem pctKeep
        (stateDistRaw (filteredRecords raw selDate selSession selState) selState) e).mp he
    obtain ⟨k, hk, rfl⟩ := List.mem_map.mp he2
    exact lookupSet_buildStateMap_length _ k

/-- Witness for C1: employee A1 has two matching records but counts once
in the FAMA JOHOR entry. -/
theorem C1_dedup_counts_witness :
    (⟨"FAMA JOHOR", 1, 15, 7⟩ : StateStat).count
      = (((stats dT0 rawW mdW "all" "all" "FAMA JOHOR").filteredData.filter
          (fun r => stateKey r == (⟨"FAMA JOHOR", 1, 15, 7⟩ : StateStat).state)).map
          (fun r => r.no_pekerja)).dedup.length :=
  (C1_dedup_counts dT0 rawW mdW "all" "all" "FAMA JOHOR").2
    ⟨"FAMA JOHOR", 1, 15, 7⟩ (by decide)

/-- C10: the state distribution is sorted by percentage in non-increasing
order, and therefore any winner the lock step records from it has
maximal percentage in the distribution at the moment of locking. -/
theorem C10_sorted_champion (dTime : String → Int) (raw : List AttendanceRecord)
    (master : List MasterRecord) (selDate selSession selState : String) :
    ((stats dTime raw master selDate selSession selState).stateDistribution).Pairwise
      (fun a b => b.percentage ≤ a.percentage)
    ∧ (∀ (m : List (String × WinnerLock)) (sel now : String) (w : WinnerLock),
        List.lookup sel m = none →
        List.lookup sel (winnerLockStep m sel
          (stats dTime raw master selDate selSession selState).stateDistribution now) = some w →
        ∀ x ∈ (stats dTime raw master selDate selSession selState).stateDistribution,
          x.percentage ≤ w.percentage) := by
  have hp : ((stats dTime raw master selDate selSession selState).stateDistribution).Pairwise
      (fun a b => b.percentage ≤ a.percentage) :=
    stateDistSorted_pairwise (filteredRecords raw selDate selSession selState) selState
  refine ⟨hp, ?_⟩
  intro m sel now w habs hw x hx
  unfold winnerLockStep at hw
  rw [if_neg (by simp [habs])] at hw
  cases hfind : ((stats dTime raw master selDate selSession selState).stateDistribution).find?
      (fun s => 100 ≤ s.percentage) with
  | none =>
      rw [hfind, habs] at hw
      cases hw
  | some c =>
      rw [hfind, lookup_append_of_none sel m _ habs] at hw
      simp [List.lookup] at hw
      have hmax := find?_champion_max _ hp c hfind x hx
      rw [← hw]
      exact hmax

/-- Witness for C10: the FAMA PERLIS entry recorded at lock time bounds
every entry of the distribution. -/
theorem C10_sorted_champion_witness :
    (⟨"FAMA PERLIS", 6, 6, 100⟩ : StateStat).percentage
      ≤ (⟨"FAMA PERLIS", 100, "t1"⟩ : WinnerLock).percentage :=
  (C10_sorted_champion dT0 rawP mdW "all" "all" "FAMA PERLIS").2 [] "Sesi 1" "t1"
    ⟨"FAMA PERLIS", 100, "t1"⟩ (by decide) (by decide)
    ⟨"FAMA PERLIS", 6, 6, 100⟩ (by decide)

/-- C5 fails as stated: with a specific unit selected, the roster
complement is further restricted to that unit, so at this input the
output is empty although roster member K1 has no matching attendance
record, and the output differs from roster minus filtered-attendance
identifiers. -/
theorem C5_counterexample :
    ¬ (((stats dT0 ([] : List AttendanceRecord) mdK "all" "all" "FAMA JOHOR").notRegisteredData
          = mdK.filter (fun staff =>
              !(((stats dT0 ([] : List AttendanceRecord) mdK "all" "all"
                  "FAMA JOHOR").filteredData.map
                  (fun r => r.no_pekerja)).contains staff.no_pekerja)))
       ∧ (((stats dT0 ([] : List AttendanceRecord) mdK "all" "all"
              "FAMA JOHOR").notRegisteredData = [])
          ↔ ∀ staff ∈ mdK,
              ∃ r ∈ (stats dT0 ([] : List AttendanceRecord) mdK "all" "all"
                  "FAMA JOHOR").filteredData,
                r.no_pekerja = staff.no_pekerja)) := by
  decide

theorem rosterBase_eq (l : List AttendanceRecord) (master : List MasterRecord) :
    rosterBase (uniqueParticipants l) master
      = master.filter (fun staff =>
          !((l.map (fun r => r.no_pekerja)).contains staff.no_pekerja)) := by
  unfold rosterBase
  apply List.filter_congr
  intro staff _
  congr 1
  rw [Bool.eq_iff_iff]
  simp [List.contains, List.elem_iff, uniqueParticipants_mem, List.mem_map]

/-- C5 amended: the roster complement equals the roster members whose
identifier does not occur among the filtered attendance identifiers,
additionally restricted to the selected unit when a specific unit is
selected; it is empty exactly when every roster member in that scope has
a matching filtered record. -/
theorem C5_roster_complement (dTime : String → Int) (raw : List AttendanceRecord)
    (master : List MasterRecord) (selDate selSession selState : String) :
    (stats dTime raw master selDate selSession selState).notRegisteredData
      = (master.filter (fun staff =>
          !(((stats dTime raw master selDate selSession selState).filteredData.map
              (fun r => r.no_pekerja)).contains staff.no_pekerja))).filter
          (fun staff => selState == "all" || staff.wing_negeri == some selState)
    ∧ ((stats dTime raw master selDate selSession selState).notRegisteredData = []
        ↔ ∀ staff ∈ master, (selState = "all" ∨ staff.wing_negeri = some selState) →
            ∃ r ∈ (stats dTime raw master selDate selSession selState).filteredData,
              r.no_pekerja = staff.no_pekerja) := by
  have hfd : (stats dTime raw master selDate selSession selState).filteredData
      = filteredRecords raw selDate selSession selState := rfl
  have hnr : (stats dTime raw master selDate selSession selState).notRegisteredData
      = notRegisteredFor raw master selDate selSession selState := rfl
  rw [hfd, hnr]
  have heq1 : notRegisteredFor raw master selDate selSession selState
      = (master.filter (fun staff =>
          !(((filteredRecords raw selDate selSession selState).map
              (fun r => r.no_pekerja)).contains staff.no_pekerja))).filter
          (fun staff => selState == "all" || staff.wing_negeri == some selState) := by
    unfold notRegisteredFor
    by_cases hst : (selState == "all") = true
    · rw [if_pos hst, rosterBase_eq]
      simp [hst]
    · have hst2 : (selState == "all") = false := by simpa using hst
      rw [if_neg (by simp [hst2]), rosterBase_eq]
      simp [hst2]
  refine ⟨heq1, ?_⟩
  rw [heq1, List.filter_filter, List.filter_eq_nil_iff]
  constructor
  · intro h staff hs hP1
    have h2 := h staff hs
    simp only [Bool.and_eq_true, Bool.or_eq_true, beq_iff_eq, Bool.not_eq_true', not_and] at h2
    cases hcb : ((filteredRecords raw selDate selSession selState).map
        (fun r => r.no_pekerja)).contains staff.no_pekerja with
    | true =>
        have hmem : staff.no_pekerja ∈ (filteredRecords raw selDate selSession selState).map
            (fun r => r.no_pekerja) := by
          simpa [List.contains, List.elem_iff] using hcb
        obtain ⟨r, hr, hrid⟩ := List.mem_map.mp hmem
        exact ⟨r, hr, hrid⟩
    | false => exact absurd hcb (h2 hP1)
  · intro h staff hs
    simp only [Bool.and_eq_true, Bool.or_eq_true, beq_iff_eq, Bool.not_eq_true', not_and]
    intro hP1
    obtain ⟨r, hr, hrid⟩ := h staff hs hP1
    have hmem : staff.no_pekerja ∈ (filteredRecords raw selDate selSession selState).map
        (fun r => r.no_pekerja) := List.mem_map.mpr ⟨r, hr, hrid⟩
    simp [List.contains, List.elem_iff, hmem]

/-- Witness for C5 amended: at a concrete input the complement equality
holds with the unit restriction in place. -/
theorem C5_roster_complement_witness :
    (stats dT0 rawW mdW "all" "all" "FAMA JOHOR").notRegisteredData
      = (mdW.filter (fun staff =>
          !(((stats dT0 rawW mdW "all" "all" "FAMA JOHOR").filteredData.map
              (fun r => r.no_pekerja)).contains staff.no_pekerja))).filter
          (fun staff => "FAMA JOHOR" == "all" || staff.wing_negeri == some "FAMA JOHOR") :=
  (C5_roster_complement dT0 rawW mdW "all" "all" "FAMA JOHOR").1

/-- C6: the state distribution is never empty and topState is its first
unit of maximal percentage, ties resolved by first occurrence in the
unit-key list (the preset configuration order), which the stable sort
preserves; topState can be none only if the distribution were empty. -/
theorem C6_topState (dTime : String → Int) (raw : List AttendanceRecord)
    (master : List MasterRecord) (selDate selSession selState : String) :
    (stats dTime raw master selDate selSession selState).stateDistribution ≠ []
    ∧ ((stats dTime raw master selDate selSession selState).topState = none →
        (stats dTime raw master selDate selSession selState).stateDistribution = [])
    ∧ ∃ t pre post,
        (stats dTime raw master selDate selSession selState).topState = some t
        ∧ stateDistRaw (filteredRecords raw selDate selSession selState) selState
            = pre ++ t :: post
        ∧ (∀ e ∈ pre, e.percentage < t.percentage)
        ∧ (∀ e ∈ (stats dTime raw master selDate selSession selState).stateDistribution,
            e.percentage ≤ t.percentage) := by
  have hpos : ∀ x ∈ stateDistSorted (filteredRecords raw selDate selSession selState) selState,
      -1 < (fun s : StateStat => (s.percentage : Int)) x := by
    intro x _
    show (-1 : Int) < (x.percentage : Int)
    have h0 : (0 : Int) ≤ (x.percentage : Int) := Int.natCast_nonneg _
    omega
  have htop : (stats dTime raw master selDate selSession selState).topState
      = firstMaxBy (fun s : StateStat => (s.percentage : Int))
          (stateDistSorted (filteredRecords raw selDate selSession selState) selState) := by
    show firstMaxLoop _ _ = _
    exact firstMaxLoop_eq _ _ hpos
  have hpw : (stateDistSorted (filteredRecords raw selDate selSession selState)
      selState).Pairwise (fun a b => (b.percentage : Int) ≤ (a.percentage : Int)) := by
    refine (stateDistSorted_pairwise _ _).imp ?_
    intro a b h
    exact_mod_cast h
  have hhead : firstMaxBy (fun s : StateStat => (s.percentage : Int))
        (stateDistSorted (filteredRecords raw selDate selSession selState) selState)
      = (stateDistSorted (filteredRecords raw selDate selSession selState) selState).head? :=
    firstMaxBy_of_pairwise _ _ hpw
  have hsort : (stateDistSorted (filteredRecords raw selDate selSession selState)
        selState).head?
      = firstMaxBy (fun s : StateStat => (s.percentage : Int))
          (stateDistRaw (filteredRecords raw selDate selSession selState) selState) :=
    jsSortBy_head (fun s : StateStat => (s.percentage : Int)) pctKeep pctKeep_iff
      (stateDistRaw (filteredRecords raw selDate selSession selState) selState)
  have htop2 : (stats dTime raw master selDate selSession selState).topState
      = firstMaxBy (fun s : StateStat => (s.percentage : Int))
          (stateDistRaw (filteredRecords raw selDate selSession selState) selState) :=
    (htop.trans hhead).trans hsort
  cases hfm : firstMaxBy (fun s : StateStat => (s.percentage : Int))
      (stateDistRaw (filteredRecords raw selDate selSession selState) selState) with
  | none =>
      exact absurd ((firstMaxBy_eq_none _ _).mp hfm) (stateDistRaw_ne_nil _ _)
  | some t =>
      obtain ⟨pre, post, heqd, hpre, hall⟩ := firstMaxBy_spec _ _ t hfm
      refine ⟨stateDistSorted_ne_nil _ _, ?_, t, pre, post, htop2.trans hfm, heqd, ?_, ?_⟩
      · intro hnone
        exact absurd (hfm.symm.trans (htop2.symm.trans hnone)) (by simp)
      · intro e he
        exact_mod_cast hpre e he
      · intro e he
        have he2 : e ∈ stateDistRaw (filteredRecords raw selDate selSession selState)
            selState := (jsSortBy_mem pctKeep _ e).mp he
        exact_mod_cast hall e he2

/-- Witness for C6: at a concrete input the distribution is non-empty. -/
theorem C6_topState_witness :
    (stats dT0 rawW mdW "all" "all" "FAMA JOHOR").stateDistribution ≠ [] :=
  (C6_topState dT0 rawW mdW "all" "all" "FAMA JOHOR").1

/-- C7: the date distribution is sorted date-ascending under the supplied
timestamp interpretation; topDay is none exactly when the filtered set is
empty, and otherwise is the first entry of maximal count in that
date-ascending order. -/
theorem C7_topDay (dTime : String → Int) (raw : List AttendanceRecord)
    (master : List MasterRecord) (selDate selSession selState : String) :
    ((stats dTime raw master selDate selSession selState).dateDistribution).Pairwise
      (fun a b => dTime a.date ≤ dTime b.date)
    ∧ ((stats dTime raw master selDate selSession selState).filteredData = [] →
        (stats dTime raw master selDate selSession selState).topDay = none)
    ∧ ((stats dTime raw master selDate selSession selState).topDay = none →
        (stats dTime raw master selDate selSession selState).filteredData = [])
    ∧ ((stats dTime raw master selDate selSession selState).filteredData ≠ [] →
        ∃ t pre post,
          (stats dTime raw master selDate selSession selState).topDay = some t
          ∧ (stats dTime raw master selDate selSession selState).dateDistribution
              = pre ++ t :: post
          ∧ (∀ e ∈ pre, e.count < t.count)
          ∧ (∀ e ∈ (stats dTime raw master selDate selSession selState).dateDistribution,
              e.count ≤ t.count)) := by
  have hpos : ∀ x ∈ dateDistSorted dTime (filteredRecords raw selDate selSession selState),
      -1 < (fun e : DateStat => (e.count : Int)) x := by
    intro x _
    show (-1 : Int) < (x.count : Int)
    have h0 : (0 : Int) ≤ (x.count : Int) := Int.natCast_nonneg _
    omega
  have htop : (stats dTime raw master selDate selSession selState).topDay
      = firstMaxBy (fun e : DateStat => (e.count : Int))
          (dateDistSorted dTime (filteredRecords raw selDate selSession selState)) := by
    show firstMaxLoop _ _ = _
    exact firstMaxLoop_eq _ _ hpos
  refine ⟨dateDistSorted_pairwise dTime _, ?_, ?_, ?_⟩
  · intro h
    have h2 : filteredRecords raw selDate selSession selState = [] := h
    have h3 : dateDistSorted dTime (filteredRecords raw selDate selSession selState) = [] :=
      (dateDistSorted_eq_nil dTime _).mpr h2
    rw [htop, h3]
    rfl
  · intro h
    rw [htop] at h
    exact (dateDistSorted_eq_nil dTime _).mp ((firstMaxBy_eq_none _ _).mp h)
  · intro hne
    cases hfm : firstMaxBy (fun e : DateStat => (e.count : Int))
        (dateDistSorted dTime (filteredRecords raw selDate selSession selState)) with
    | none =>
        exact absurd ((dateDistSorted_eq_nil dTime _).mp ((firstMaxBy_eq_none _ _).mp hfm)) hne
    | some t =>
        obtain ⟨pre, post, heqd, hpre, hall⟩ := firstMaxBy_spec _ _ t hfm
        refine ⟨t, pre, post, htop.trans hfm, heqd, ?_, ?_⟩
        · intro e he
          exact_mod_cast hpre e he
        · intro e he
          exact_mod_cast hall e he

/-- Witness for C7: with no raw data the filtered set is empty and topDay
is none. -/
theorem C7_topDay_witness :
    (stats dT0 ([] : List AttendanceRecord) mdW "all" "all" "all").topDay = none :=
  (C7_topDay dT0 ([] : List AttendanceRecord) mdW "all" "all" "all").2.1 rfl

/-- C9: a record with missing unit or date that passes the filters is not
rejected: it appears in the filtered data and counts toward the
deduplicated total, a missing date is bucketed under the N/A key of the
per-date counts, and a missing unit puts the employee identifier in the
Lain-lain bucket of the per-unit sets. -/
theorem C9_unclassified (dTime : String → Int) (raw : List AttendanceRecord)
    (master : List MasterRecord) (selDate selSession selState : String)
    (r : AttendanceRecord) (hr : r ∈ raw)
    (hm : recordMatches selDate selSession selState r = true) :
    r ∈ (stats dTime raw master selDate selSession selState).filteredData
    ∧ 1 ≤ (stats dTime raw master selDate selSession selState).totalParticipants
    ∧ (r.tarikh_kehadiran = none →
        1 ≤ lookupCnt (buildDateMap
          (stats dTime raw master selDate selSession selState).filteredData) "N/A")
    ∧ (r.wing_negeri = none →
        r.no_pekerja ∈ lookupSet (buildStateMap
          (stats dTime raw master selDate selSession selState).filteredData) "Lain-lain") := by
  have hrf : r ∈ filteredRecords raw selDate selSession selState :=
    List.mem_filter.mpr ⟨hr, hm⟩
  refine ⟨hrf, ?_, ?_, ?_⟩
  · have hmem : r.no_pekerja ∈ uniqueParticipants (filteredRecords raw selDate selSession
        selState) := (uniqueParticipants_mem _ _).mpr ⟨r, hrf, rfl⟩
    exact List.length_pos_of_mem hmem
  · intro hd
    have hkey : dateKey r = "N/A" := by simp [dateKey, jsFalsy, hd]
    have hcnt : 0 < (filteredRecords raw selDate selSession selState).countP
        (fun x => dateKey x == "N/A") := by
      rw [List.countP_pos_iff]
      exact ⟨r, hrf, by simp [hkey]⟩
    rw [show (stats dTime raw master selDate selSession selState).filteredData
        = filteredRecords raw selDate selSession selState from rfl, lookupCnt_buildDateMap]
    exact hcnt
  · intro hw
    have hkey : stateKey r = "Lain-lain" := by simp [stateKey, jsFalsy, hw]
    rw [show (stats dTime raw master selDate selSession selState).filteredData
        = filteredRecords raw selDate selSession selState from rfl]
    exact (lookupSet_buildStateMap_mem _ _ _).mpr ⟨r, hrf, hkey, rfl⟩

/-- Witness for C9: the record with missing date and unit is kept, counts
toward the N/A date bucket, and its identifier lands in Lain-lain. -/
theorem C9_unclassified_witness :
    rN ∈ (stats dT0 rawW mdW "all" "all" "all").filteredData
    ∧ 1 ≤ lookupCnt (buildDateMap (stats dT0 rawW mdW "all" "all" "all").filteredData) "N/A"
    ∧ rN.no_pekerja ∈ lookupSet
        (buildStateMap (stats dT0 rawW mdW "all" "all" "all").filteredData) "Lain-lain" :=
  ⟨(C9_unclassified dT0 rawW mdW "all" "all" "all" rN (by decide) (by decide)).1,
   (C9_unclassified dT0 rawW mdW "all" "all" "all" rN (by decide) (by decide)).2.2.1 (by decide),
   (C9_unclassified dT0 rawW mdW "all" "all" "all" rN (by decide) (by decide)).2.2.2 (by decide)⟩
